import Mathlib

/-!
Shallow embedding of the `SimpleVector<Type>` container (simple_vector.h) and
proofs of the specification claims about it.

The embedding has two layers.

* A pure, success-path model (`SimpleVec` namespace): the container state is a
  buffer of `capacity` slots (a `List α` of that length), a logical `size`, a
  `capacity`, and an abstract buffer identity `bufId` (a fresh identity is
  produced whenever the C++ code allocates a new `ArrayPtr` and swaps it in;
  it stands for the address of the allocation, so "the element addresses are
  unchanged" is expressed as `bufId` being unchanged together with the slot
  contents).  Slots `[0, size)` are the live elements; slots `[size, capacity)`
  hold stale or default content.  C++ position iterators are embedded as `Int`
  offsets from `begin()`, so that the pointer comparisons of
  `IteratorChecking` translate literally.

* An exception-instrumented model (`SimpleVec.Exn` namespace) in which the
  element type's compile-time traits (`std::is_nothrow_move_assignable_v`,
  `std::is_copy_assignable_v`) and the run-time throwing behaviour of its copy
  and move assignment operators are an explicit `ElemModel` oracle.  Each
  instrumented operation returns the resulting container state together with a
  `Res` value that records normal completion (`ok`), a thrown
  `std::out_of_range` (`err outOfRange`), or an exception propagated from an
  element assignment (`err elemFail`).

The external `ArrayPtr` owning-buffer primitive (array_ptr.h, out of scope per
the specification) is embedded as: allocation of `n` slots yields `n`
default-initialized slots and a fresh `bufId`; `swap` exchanges the fields;
indexing reads/writes a slot.
-/

namespace SimpleVec

/-- State of a `SimpleVector<Type>`: `buf` models the `ArrayPtr<Type> ptr_`
allocation slot-by-slot (`buf.length = capacity_` for well-formed states),
`size` models `size_`, `capacity` models `capacity_`, and `bufId` models the
identity (address) of the current allocation. -/
structure SimpleVector (α : Type) where
  buf : List α
  size : Nat
  capacity : Nat
  bufId : Nat
  deriving DecidableEq

/-- Well-formedness invariant of the embedding: the buffer really has
`capacity_` slots and `size_ <= capacity_`. -/
def WF {α : Type} (v : SimpleVector α) : Prop :=
  v.buf.length = v.capacity ∧ v.size ≤ v.capacity

/-- The live element sequence: slots `[0, size)` of the buffer. -/
def elems {α : Type} (v : SimpleVector α) : List α :=
  v.buf.take v.size

/-- Growth formula of `UniversalPushBack` / `UniversalInsert`:
`capacity_ == 0 ? 1 : capacity_ * 2`. -/
def newCapacity (c : Nat) : Nat :=
  if c = 0 then 1 else 2 * c

/-- Default-constructed `SimpleVector()`: empty, no allocation. -/
def defaultVector (α : Type) : SimpleVector α :=
  ⟨[], 0, 0, 0⟩

/-- Embedding of the private helper `IteratorChecking(it, first, last)`:
it throws `std::out_of_range` exactly when `it < first || it > last`, with
iterators embedded as `Int` offsets from `begin()`. -/
def IteratorChecking (off first last : Int) : Prop :=
  off < first ∨ last < off

instance (off first last : Int) : Decidable (IteratorChecking off first last) := by
  unfold IteratorChecking
  infer_instance

variable {α : Type} [Inhabited α]

/-- Success-path semantics of `PushBack` (`UniversalPushBack`): on growth a
new buffer of `newCapacity capacity_` slots is allocated (fresh `bufId`), the
new element is written into slot `size_`, `DataOverwrite` transfers the old
live elements into slots `[0, size_)`, the buffers are swapped and
`capacity_` is updated; otherwise the element is written into slot `size_` of
the existing buffer.  Finally `size_` is incremented. -/
def PushBack (v : SimpleVector α) (x : α) : SimpleVector α :=
  if v.size = v.capacity then
    { buf := elems v ++ x :: List.replicate (newCapacity v.capacity - (v.size + 1)) default
      size := v.size + 1
      capacity := newCapacity v.capacity
      bufId := v.bufId + 1 }
  else
    { v with buf := v.buf.set v.size x, size := v.size + 1 }

/-- `PopBack`: returns immediately when empty, otherwise decrements `size_`. -/
def PopBack (v : SimpleVector α) : SimpleVector α :=
  if v.size = 0 then v else { v with size := v.size - 1 }

/-- `Clear`: sets `size_` to 0, leaving buffer and capacity alone. -/
def Clear (v : SimpleVector α) : SimpleVector α :=
  { v with size := 0 }

/-- `swap`: exchanges `ptr_`, `size_` and `capacity_` of the two containers
(hence every field of the embedded state, `bufId` included). -/
def swapVec (a b : SimpleVector α) : SimpleVector α × SimpleVector α :=
  (b, a)

/-- Success-path semantics of `Insert` (`UniversalInsert`) at iterator offset
`off` (an `Int`, since `pos` may lie anywhere relative to `begin()`).
`IteratorChecking(pos, cbegin(), cend())` throws (`none`) when
`off < 0 ∨ size_ < off`.  Otherwise `idx = pos - begin()`.  On growth: a new
buffer of `newCapacity capacity_` slots (fresh `bufId`), the value written at
slot `idx`, the old elements `[0, idx)` transferred to `[0, idx)` and
`[idx, size_)` to `[idx + 1, size_ + 1)`, remaining slots default.  In place:
the suffix `[idx, size_)` is shifted one slot right and the value written at
slot `idx`.  Then `size_` is incremented and `begin() + idx` returned. -/
def Insert (v : SimpleVector α) (off : Int) (x : α) :
    Option (SimpleVector α × Nat) :=
  if IteratorChecking off 0 (v.size : Int) then none
  else
    let idx := off.toNat
    if v.size = v.capacity then
      some ({ buf := (elems v).take idx ++ x ::
                ((elems v).drop idx ++
                  List.replicate (newCapacity v.capacity - (v.size + 1)) default)
              size := v.size + 1
              capacity := newCapacity v.capacity
              bufId := v.bufId + 1 }, idx)
    else
      some ({ v with
              buf := v.buf.take idx ++ x ::
                ((v.buf.drop idx).take (v.size - idx) ++ v.buf.drop (v.size + 1))
              size := v.size + 1 }, idx)

/-- Success-path semantics of `Erase` at iterator offset `off`.
`IteratorChecking(pos, cbegin(), cend() - 1)` throws (`none`) when
`off < 0 ∨ size_ - 1 < off`.  Otherwise `DataOverwrite(pos + 1, end(), pos)`
shifts slots `[idx + 1, size_)` one slot left onto `[idx, size_ - 1)` (slot
`size_ - 1` keeps its stale value), `size_` is decremented, and the offset of
the erased slot is returned. -/
def Erase (v : SimpleVector α) (off : Int) : Option (SimpleVector α × Nat) :=
  if IteratorChecking off 0 ((v.size : Int) - 1) then none
  else
    let idx := off.toNat
    some ({ v with
            buf := v.buf.take idx ++
              ((v.buf.drop (idx + 1)).take (v.size - (idx + 1)) ++
                v.buf.drop (v.size - 1))
            size := v.size - 1 }, idx)

/-- `Reserve(new_capacity)`: returns immediately when
`capacity_ >= new_capacity`; otherwise allocates `new_capacity` slots (fresh
`bufId`), transfers the live elements, swaps the buffer in and updates
`capacity_` (`size_` untouched). -/
def Reserve (v : SimpleVector α) (c : Nat) : SimpleVector α :=
  if c ≤ v.capacity then v
  else
    { buf := elems v ++ List.replicate (c - v.size) default
      size := v.size
      capacity := c
      bufId := v.bufId + 1 }

/-- Move assignment `operator=(SimpleVector&&)`.  `sameObject` models the
pointer test `this == &rhs` (`true` when the two references alias).  When they
alias, the guard `if (this != &rhs)` skips the whole body and both objects are
untouched.  Otherwise `this` takes `rhs`'s buffer, size and capacity, and
`rhs` is left empty (null buffer, size 0, capacity 0). -/
def moveAssign (lhs rhs : SimpleVector α) (sameObject : Bool) :
    SimpleVector α × SimpleVector α :=
  if sameObject then (lhs, rhs)
  else
    ({ buf := rhs.buf, size := rhs.size, capacity := rhs.capacity, bufId := rhs.bufId },
     { buf := [], size := 0, capacity := 0, bufId := 0 })

/-- A sequence of `PushBack` calls, one per element of `xs`. -/
def pushList (v : SimpleVector α) (xs : List α) : SimpleVector α :=
  xs.foldl PushBack v

end SimpleVec

namespace SimpleVec.Exn

/-- Outcomes of an operation that can throw: `outOfRange` models a thrown
`std::out_of_range`, `elemFail` an exception propagated out of an element
copy/move assignment. -/
inductive Err where
  | outOfRange
  | elemFail
  deriving DecidableEq

/-- Result of an instrumented operation: normal return carrying a value, or a
propagated exception. -/
inductive Res (β : Type) where
  | ok : β → Res β
  | err : Err → Res β
  deriving DecidableEq

/-- Compile-time traits and run-time throwing behaviour of the element type
`Type`: `nothrowMove` is `std::is_nothrow_move_assignable_v<Type>`,
`copyAssignable` is `std::is_copy_assignable_v<Type>`; `copyThrows a`
(resp. `moveThrows a`) says whether copy-assigning (resp. move-assigning) the
value `a` into a slot throws; `movedFrom a` is the value a source object holds
after being moved from. -/
structure ElemModel (α : Type) where
  nothrowMove : Bool
  copyAssignable : Bool
  copyThrows : α → Bool
  moveThrows : α → Bool
  movedFrom : α → α

/-- The branch condition of `DataOverwrite`
(`!std::is_copy_assignable_v<Type> || std::is_nothrow_move_assignable_v<Type>`):
`true` selects `std::move`, `false` selects `std::copy`. -/
def useMove {α : Type} (m : ElemModel α) : Bool :=
  !m.copyAssignable || m.nothrowMove

/-- The branch condition of the in-place shift in `UniversalInsert`
(`std::is_nothrow_move_assignable_v<Type> || !std::is_copy_assignable_v<Type>`):
`true` selects `std::move_backward`, `false` selects `std::copy_backward`. -/
def useMoveIns {α : Type} (m : ElemModel α) : Bool :=
  m.nothrowMove || !m.copyAssignable

/-- Whether the single assignment `slot = std::forward<U>(item)` throws:
a move assignment when the argument was an rvalue (`byMove = true`, the
`Type&&` overloads), a copy assignment otherwise. -/
def assignThrows {α : Type} (m : ElemModel α) (byMove : Bool) (a : α) : Bool :=
  if byMove then m.moveThrows a else m.copyThrows a

/-- Instrumented `std::move(first, last, out)` over the source values `src`:
returns (values written to the destination, source values after the loop,
completion flag).  Elements are processed left to right; a throwing move stops
the loop with the remaining sources untouched, while already-processed sources
hold their moved-from values. -/
def stdMoveRange {α : Type} (m : ElemModel α) : List α → List α × List α × Bool
  | [] => ([], [], true)
  | a :: t =>
    if m.moveThrows a then ([], a :: t, false)
    else
      let r := stdMoveRange m t
      (a :: r.1, m.movedFrom a :: r.2.1, r.2.2)

/-- Instrumented `std::copy(first, last, out)` over the source values `src`:
returns (values written to the destination, completion flag).  Copying never
writes to the source range. -/
def stdCopyRange {α : Type} (m : ElemModel α) : List α → List α × Bool
  | [] => ([], true)
  | a :: t =>
    if m.copyThrows a then ([], false)
    else
      let r := stdCopyRange m t
      (a :: r.1, r.2)

/-- Instrumented `DataOverwrite(in_first, in_last, out_first)`, the single
relocation helper called by the growth paths of `UniversalPushBack` and
`UniversalInsert`, by `Resize`, by `Reserve` and by the `Erase` left shift:
`if constexpr (!std::is_copy_assignable_v<Type> ||
std::is_nothrow_move_assignable_v<Type>) std::move(...); else std::copy(...)`.
Returns (destination values written, source values afterwards, completion
flag). -/
def DataOverwrite {α : Type} (m : ElemModel α) (src : List α) :
    List α × List α × Bool :=
  if useMove m then stdMoveRange m src
  else ((stdCopyRange m src).1, src, (stdCopyRange m src).2)

/-- Overwrites the slots of `buf` starting at `start` with the values `xs`
(the slots before `start` and from `start + xs.length` on are untouched). -/
def writeSeg {α : Type} (buf : List α) (start : Nat) (xs : List α) : List α :=
  buf.take start ++ xs ++ buf.drop (start + xs.length)

variable {α : Type} [Inhabited α]

/-- Instrumented `UniversalPushBack`.  Growth path: allocate
`newCapacity capacity_` slots, write the new element into slot `size_` of the
new buffer (if that assignment throws, the new buffer is discarded and `ptr_`
is untouched), `DataOverwrite` the old live elements into the new buffer (if
that throws the new buffer is discarded; the old buffer keeps whatever the
loop left in it), swap, update `capacity_`.  Growth-free path: assign into
slot `size_` of the current buffer (a throwing assignment leaves that slot
with indeterminate content, modeled as `default`, and `size_` untouched).
`++size_` runs only after every step completed. -/
def PushBackE (m : ElemModel α) (byMove : Bool) (v : SimpleVector α) (item : α) :
    SimpleVector α × Res Unit :=
  if v.size = v.capacity then
    if assignThrows m byMove item then (v, .err .elemFail)
    else
      let r := DataOverwrite m (elems v)
      if r.2.2 then
        ({ buf := r.1 ++ item ::
             List.replicate (newCapacity v.capacity - (v.size + 1)) default
           size := v.size + 1
           capacity := newCapacity v.capacity
           bufId := v.bufId + 1 }, .ok ())
      else ({ v with buf := writeSeg v.buf 0 r.2.1 }, .err .elemFail)
  else
    if assignThrows m byMove item then
      ({ v with buf := v.buf.set v.size default }, .err .elemFail)
    else
      ({ v with buf := v.buf.set v.size item, size := v.size + 1 }, .ok ())

/-- Instrumented `PopBack` (declared `noexcept`): its body touches only
`size_`, no element operation occurs, so it always completes. -/
def PopBackE (v : SimpleVector α) : SimpleVector α × Res Unit :=
  if v.size = 0 then (v, .ok ()) else ({ v with size := v.size - 1 }, .ok ())

/-- Instrumented `Clear` (declared `noexcept`): only `size_ = 0`. -/
def ClearE (v : SimpleVector α) : SimpleVector α × Res Unit :=
  ({ v with size := 0 }, .ok ())

/-- Instrumented `swap` (declared `noexcept`): pointer and integer exchanges
only, no element operation occurs. -/
def swapE (a b : SimpleVector α) : (SimpleVector α × SimpleVector α) × Res Unit :=
  ((b, a), .ok ())

/-- Instrumented `std::move_backward` / `std::copy_backward` of the in-place
`UniversalInsert` shift: processes slots `j = idx + n - 1, ..., idx` from the
back, performing `buf[j + 1] = buf[j]` by move or copy according to
`useMoveIns`.  A throwing assignment stops the loop (the destination slot is
left indeterminate, modeled as `default`). -/
def shiftRight (m : ElemModel α) (idx : Nat) : List α → Nat → List α × Bool
  | buf, 0 => (buf, true)
  | buf, n + 1 =>
    let j := idx + n
    let a := buf.getD j default
    if useMoveIns m then
      if m.moveThrows a then (buf.set (j + 1) default, false)
      else shiftRight m idx ((buf.set (j + 1) a).set j (m.movedFrom a)) n
    else
      if m.copyThrows a then (buf.set (j + 1) default, false)
      else shiftRight m idx (buf.set (j + 1) a) n

/-- Instrumented `UniversalInsert`.  `IteratorChecking` first (throwing
`std::out_of_range` leaves the state untouched).  Growth path: write the value
into slot `idx` of the new buffer, `DataOverwrite` the elements before `idx`,
then those from `idx` on (a throw discards the new buffer and leaves `ptr_`
with whatever the loop left in the source slots).  In-place path: shift
`[idx, size_)` one slot right from the back, then write the value into slot
`idx`.  `++size_` runs only after the branch completed, so any throw leaves
`size_` untouched. -/
def InsertE (m : ElemModel α) (byMove : Bool) (v : SimpleVector α) (off : Int)
    (value : α) : SimpleVector α × Res Nat :=
  if IteratorChecking off 0 (v.size : Int) then (v, .err .outOfRange)
  else
    let idx := off.toNat
    if v.size = v.capacity then
      if assignThrows m byMove value then (v, .err .elemFail)
      else
        let r1 := DataOverwrite m ((elems v).take idx)
        if r1.2.2 then
          let r2 := DataOverwrite m ((elems v).drop idx)
          if r2.2.2 then
            ({ buf := r1.1 ++ value ::
                 (r2.1 ++ List.replicate (newCapacity v.capacity - (v.size + 1)) default)
               size := v.size + 1
               capacity := newCapacity v.capacity
               bufId := v.bufId + 1 }, .ok idx)
          else ({ v with buf := writeSeg v.buf idx r2.2.1 }, .err .elemFail)
        else ({ v with buf := writeSeg v.buf 0 r1.2.1 }, .err .elemFail)
    else
      let r := shiftRight m idx v.buf (v.size - idx)
      if r.2 then
        if assignThrows m byMove value then
          ({ v with buf := r.1.set idx default }, .err .elemFail)
        else
          ({ v with buf := r.1.set idx value, size := v.size + 1 }, .ok idx)
      else ({ v with buf := r.1 }, .err .elemFail)

end SimpleVec.Exn

namespace SimpleVec

/-- An element type whose copy and move assignments throw on every value
(copy-assignable, not nothrow-move: `DataOverwrite` picks `std::copy`).  The
test program's throwing test type behaves like this. -/
def throwingModel : Exn.ElemModel Bool :=
  { nothrowMove := false
    copyAssignable := true
    copyThrows := fun _ => true
    moveThrows := fun _ => true
    movedFrom := fun a => a }

/-- An element type whose assignments never throw. -/
def benignModel : Exn.ElemModel Bool :=
  { nothrowMove := true
    copyAssignable := true
    copyThrows := fun _ => false
    moveThrows := fun _ => false
    movedFrom := fun _ => false }

/-- A copy-assignable, not nothrow-movable element model over `Nat` whose copy
assignment throws exactly on the value 2. -/
def copyOnValueModel : Exn.ElemModel Nat :=
  { nothrowMove := false
    copyAssignable := true
    copyThrows := fun a => a == 2
    moveThrows := fun _ => true
    movedFrom := fun _ => 0 }

/-- A concrete container with one free slot: size 0, capacity 1. -/
def oneSlotVec : SimpleVector Bool := ⟨[false], 0, 1, 0⟩

/-- A concrete container with two live elements and one spare slot. -/
def twoThreeVec : SimpleVector Bool := ⟨[true, false, false], 2, 3, 0⟩

/-- A concrete full container of three naturals. -/
def natFullVec : SimpleVector Nat := ⟨[1, 2, 3], 3, 3, 0⟩

end SimpleVec

namespace SimpleVec

variable {α : Type} [Inhabited α]

theorem newCapacity_eq_max (c : Nat) : max 1 (2 * c) = newCapacity c := by
  unfold newCapacity
  split <;> omega

omit [Inhabited α] in
theorem length_elems {v : SimpleVector α} (h : v.size ≤ v.buf.length) :
    (elems v).length = v.size := by
  simp [elems]
  omega

/-- A valid `Insert` at a natural offset `i ≤ size`: the exact result state. -/
theorem Insert_spec (v : SimpleVector α) (i : Nat) (x : α)
    (hw : WF v) (hi : i ≤ v.size) :
    ∃ v', Insert v (i : Int) x = some (v', i) ∧
      v'.size = v.size + 1 ∧
      v'.capacity = (if v.size = v.capacity then newCapacity v.capacity else v.capacity) ∧
      WF v' ∧
      elems v' = (elems v).take i ++ x :: (elems v).drop i := by
  obtain ⟨hlen, hle⟩ := hw
  have hchk : ¬ IteratorChecking (i : Int) 0 (v.size : Int) := by
    unfold IteratorChecking
    omega
  have hElen : (elems v).length = v.size := length_elems (by omega)
  by_cases hc : v.size = v.capacity
  · refine ⟨{ buf := (elems v).take i ++ x :: ((elems v).drop i ++
                List.replicate (newCapacity v.capacity - (v.size + 1)) default),
              size := v.size + 1, capacity := newCapacity v.capacity,
              bufId := v.bufId + 1 },
      by simp only [Insert, if_neg hchk, Int.toNat_natCast, if_pos hc], rfl,
      by simp [hc], ?_, ?_⟩
    · constructor
      · show ((elems v).take i ++ x :: _).length = newCapacity v.capacity
        have h1 : v.size + 1 ≤ newCapacity v.capacity := by
          unfold newCapacity
          split <;> omega
        simp [hElen]
        omega
      · show v.size + 1 ≤ newCapacity v.capacity
        unfold newCapacity
        split <;> omega
    · show elems
        { buf := (elems v).take i ++ x :: ((elems v).drop i ++ _), size := v.size + 1,
          capacity := _, bufId := _ } = _
      unfold elems
      show ((elems v).take i ++ x :: ((elems v).drop i ++ _)).take (v.size + 1) = _
      rw [show (elems v).take i ++ x :: ((elems v).drop i ++
            List.replicate (newCapacity v.capacity - (v.size + 1)) default) =
          ((elems v).take i ++ x :: (elems v).drop i) ++
            List.replicate (newCapacity v.capacity - (v.size + 1)) default by
        simp]
      apply List.take_left'
      simp [hElen]
      omega
  · have hlt : v.size < v.capacity := by omega
    refine ⟨{ v with buf := v.buf.take i ++ x :: ((v.buf.drop i).take (v.size - i) ++
                              v.buf.drop (v.size + 1)),
                     size := v.size + 1 },
      by simp only [Insert, if_neg hchk, Int.toNat_natCast, if_neg hc], rfl,
      by simp [hc], ?_, ?_⟩
    · constructor
      · show (v.buf.take i ++ x :: ((v.buf.drop i).take (v.size - i) ++
            v.buf.drop (v.size + 1))).length = v.capacity
        simp
        omega
      · show v.size + 1 ≤ v.capacity
        omega
    · show elems
        { v with buf := v.buf.take i ++ x :: ((v.buf.drop i).take (v.size - i) ++
            v.buf.drop (v.size + 1)), size := v.size + 1 } = _
      unfold elems
      show (v.buf.take i ++ x :: ((v.buf.drop i).take (v.size - i) ++
          v.buf.drop (v.size + 1))).take (v.size + 1) = _
      rw [show v.buf.take i ++ x :: ((v.buf.drop i).take (v.size - i) ++
            v.buf.drop (v.size + 1)) =
          (v.buf.take i ++ x :: (v.buf.drop i).take (v.size - i)) ++
            v.buf.drop (v.size + 1) by simp]
      rw [List.take_left' (by simp; omega)]
      rw [List.take_take, List.drop_take, Nat.min_eq_left hi]

omit [Inhabited α] in
/-- A valid `Erase` at a natural offset `i < size`: the exact result state. -/
theorem Erase_spec (v : SimpleVector α) (i : Nat) (hw : WF v) (hi : i < v.size) :
    ∃ v', Erase v (i : Int) = some (v', i) ∧
      v'.size = v.size - 1 ∧ v'.capacity = v.capacity ∧ v'.bufId = v.bufId ∧
      WF v' ∧
      elems v' = (elems v).take i ++ (elems v).drop (i + 1) := by
  obtain ⟨hlen, hle⟩ := hw
  have hchk : ¬ IteratorChecking (i : Int) 0 ((v.size : Int) - 1) := by
    unfold IteratorChecking
    omega
  refine ⟨{ v with buf := v.buf.take i ++ ((v.buf.drop (i + 1)).take (v.size - (i + 1)) ++
                            v.buf.drop (v.size - 1)),
                   size := v.size - 1 },
    by simp only [Erase, if_neg hchk, Int.toNat_natCast], rfl, rfl, rfl, ?_, ?_⟩
  · constructor
    · show (v.buf.take i ++ ((v.buf.drop (i + 1)).take (v.size - (i + 1)) ++
          v.buf.drop (v.size - 1))).length = v.capacity
      simp
      omega
    · show v.size - 1 ≤ v.capacity
      omega
  · show elems
      { v with buf := v.buf.take i ++ ((v.buf.drop (i + 1)).take (v.size - (i + 1)) ++
          v.buf.drop (v.size - 1)), size := v.size - 1 } = _
    unfold elems
    show (v.buf.take i ++ ((v.buf.drop (i + 1)).take (v.size - (i + 1)) ++
        v.buf.drop (v.size - 1))).take (v.size - 1) = _
    rw [show v.buf.take i ++ ((v.buf.drop (i + 1)).take (v.size - (i + 1)) ++
          v.buf.drop (v.size - 1)) =
        (v.buf.take i ++ (v.buf.drop (i + 1)).take (v.size - (i + 1))) ++
          v.buf.drop (v.size - 1) by simp]
    rw [List.take_left' (by simp; omega)]
    rw [List.take_take, List.drop_take, Nat.min_eq_left (Nat.le_of_lt hi)]

/-- `Insert` throws `std::out_of_range` exactly when the position is outside
`[begin, end]`. -/
theorem Insert_eq_none_iff (v : SimpleVector α) (off : Int) (x : α) :
    Insert v off x = none ↔ off < 0 ∨ (v.size : Int) < off := by
  unfold Insert IteratorChecking
  split_ifs <;> simp_all

omit [Inhabited α] in
/-- `Erase` throws `std::out_of_range` exactly when the position is outside
`[begin, end)`. -/
theorem Erase_eq_none_iff (v : SimpleVector α) (off : Int) :
    Erase v off = none ↔ off < 0 ∨ (v.size : Int) ≤ off := by
  unfold Erase IteratorChecking
  split_ifs with h
  · constructor
    · intro _
      omega
    · intro _
      rfl
  · constructor
    · intro hcontra
      simp at hcontra
    · intro hor
      exact absurd hor (by omega)

/-- The growth invariant: `size <= capacity` and `capacity` is zero or a power
of two. -/
def GrowthInv (v : SimpleVector α) : Prop :=
  v.size ≤ v.capacity ∧ (v.capacity = 0 ∨ ∃ j, v.capacity = 2 ^ j)

theorem PushBack_growthInv (v : SimpleVector α) (x : α) (h : GrowthInv v) :
    GrowthInv (PushBack v x) ∧ (PushBack v x).size = v.size + 1 := by
  obtain ⟨hle, hp⟩ := h
  have hsize : (PushBack v x).size = v.size + 1 := by
    unfold PushBack
    split_ifs <;> rfl
  have hcap : (PushBack v x).capacity =
      if v.size = v.capacity then newCapacity v.capacity else v.capacity := by
    unfold PushBack
    split_ifs <;> rfl
  refine ⟨⟨?_, ?_⟩, hsize⟩
  · rw [hsize, hcap]
    split_ifs with hc
    · unfold newCapacity
      split_ifs <;> omega
    · omega
  · rw [hcap]
    split_ifs with hc
    · unfold newCapacity
      split_ifs with h0
      · exact Or.inr ⟨0, rfl⟩
      · rcases hp with h | ⟨j, hj⟩
        · exact absurd h h0
        · exact Or.inr ⟨j + 1, by rw [pow_succ]; omega⟩
    · exact hp

theorem pushList_growthInv (xs : List α) (v : SimpleVector α) (h : GrowthInv v) :
    GrowthInv (pushList v xs) ∧ (pushList v xs).size = v.size + xs.length := by
  induction xs generalizing v with
  | nil => simpa [pushList] using h
  | cons a t ih =>
    obtain ⟨h1, h2⟩ := PushBack_growthInv v a h
    obtain ⟨h3, h4⟩ := ih (PushBack v a) h1
    refine ⟨by simpa [pushList] using h3, ?_⟩
    show (pushList (PushBack v a) t).size = v.size + (t.length + 1)
    omega

/-- C3: whenever `PushBack` or `Insert` runs with `size_ == capacity_`, the
new capacity is `max(1, 2 * old_capacity)` (growth from 0 yields 1); and after
`k >= 1` `PushBack` calls on a default-constructed container the capacity is
a power of two from the doubling sequence and is at least `k`. -/
theorem C3_capacity_doubling (v : SimpleVector α) (x : α) (off : Int) (xs : List α) :
    (v.size = v.capacity → (PushBack v x).capacity = max 1 (2 * v.capacity)) ∧
    (v.size = v.capacity → ∀ v' i, Insert v off x = some (v', i) →
      v'.capacity = max 1 (2 * v.capacity)) ∧
    (1 ≤ xs.length →
      (∃ j, (pushList (defaultVector α) xs).capacity = 2 ^ j) ∧
      xs.length ≤ (pushList (defaultVector α) xs).capacity) := by
  refine ⟨?_, ?_, ?_⟩
  · intro hc
    rw [newCapacity_eq_max]
    unfold PushBack
    rw [if_pos hc]
  · intro hc v' i h
    rw [newCapacity_eq_max]
    unfold Insert at h
    by_cases h1 : IteratorChecking off 0 (v.size : Int)
    · rw [if_pos h1] at h
      simp at h
    · rw [if_neg h1] at h
      simp only [hc] at h
      simp only [if_pos, ite_true, eq_self_iff_true, Option.some.injEq,
        Prod.mk.injEq] at h
      obtain ⟨hv, -⟩ := h
      rw [← hv]
  · intro hk
    obtain ⟨⟨hle, hp⟩, hsz⟩ :=
      pushList_growthInv xs (defaultVector α) ⟨Nat.le_refl 0, Or.inl rfl⟩
    have hszlen : (pushList (defaultVector α) xs).size = xs.length := by
      simpa [defaultVector] using hsz
    constructor
    · rcases hp with h | h
      · exfalso
        omega
      · exact h
    · omega

/-- C3 witness: concrete instances of the doubling law, on a full vector of
size 3 (capacity 3 to 6) and on one append to a default-constructed
container. -/
theorem C3_capacity_doubling_witness :
    natFullVec.size = natFullVec.capacity ∧
    (PushBack natFullVec 7).capacity = max 1 (2 * natFullVec.capacity) ∧
    1 ≤ [(5 : Nat)].length ∧
    (∃ j, (pushList (defaultVector Nat) [5]).capacity = 2 ^ j) ∧
    [(5 : Nat)].length ≤ (pushList (defaultVector Nat) [5]).capacity :=
  ⟨rfl, (C3_capacity_doubling natFullVec 7 0 [5]).1 rfl, by decide,
   ((C3_capacity_doubling natFullVec 7 0 [5]).2.2 (by decide)).1,
   ((C3_capacity_doubling natFullVec 7 0 [5]).2.2 (by decide)).2⟩

/-- C4: `Insert` fails with `std::out_of_range` exactly when the position is
outside `[begin, end]` (end inclusive); a successful insert at offset
`i ≤ size` returns offset `i`, which then holds the inserted value, keeps the
elements before `i`, shifts the elements from `i` on behind the new value in
their original order, and increments the size by exactly 1. -/
theorem C4_insert_contract (v : SimpleVector α) (off : Int) (x : α) (i : Nat)
    (hw : WF v) (hi : i ≤ v.size) :
    (Insert v off x = none ↔ off < 0 ∨ (v.size : Int) < off) ∧
    (∃ v', Insert v (i : Int) x = some (v', i) ∧
      v'.size = v.size + 1 ∧
      elems v' = (elems v).take i ++ x :: (elems v).drop i ∧
      (elems v')[i]? = some x) := by
  refine ⟨Insert_eq_none_iff v off x, ?_⟩
  obtain ⟨v', h1, h2, h3, h4, h5⟩ := Insert_spec v i x hw hi
  obtain ⟨hlen, hle⟩ := hw
  have hlen1 : ((elems v).take i).length = i := by
    rw [List.length_take, length_elems (by omega)]
    omega
  refine ⟨v', h1, h2, h5, ?_⟩
  rw [h5, List.getElem?_append_right hlen1.le, hlen1, Nat.sub_self]
  exact List.getElem?_cons_zero

/-- C4 witness: inserting 99 at offset 1 of `(1, 2, 3)` yields
`(1, 99, 2, 3)`; offset 5 is rejected. -/
theorem C4_insert_contract_witness :
    WF natFullVec ∧ 1 ≤ natFullVec.size ∧
    ((Insert natFullVec 5 99 = none ↔ (5 : Int) < 0 ∨ ((natFullVec.size : Int) < 5)) ∧
     (∃ v', Insert natFullVec (1 : Nat) 99 = some (v', 1) ∧
       v'.size = natFullVec.size + 1 ∧
       elems v' = (elems natFullVec).take 1 ++ 99 :: (elems natFullVec).drop 1 ∧
       (elems v')[1]? = some 99)) :=
  ⟨by unfold WF natFullVec; exact ⟨rfl, by decide⟩, by decide,
   C4_insert_contract natFullVec 5 99 1 (by unfold WF natFullVec; exact ⟨rfl, by decide⟩)
     (by decide)⟩

omit [Inhabited α] in
/-- C5: `Erase` fails with `std::out_of_range` exactly when the position is
outside `[begin, end)` (end excluded); a successful erase at offset
`i < size` shifts every later element one slot left, decrements the size by
exactly 1, and returns offset `i`, which afterwards holds the old element
`i + 1` (or equals the new end when the last element was erased). -/
theorem C5_erase_contract (v : SimpleVector α) (off : Int) (i : Nat)
    (hw : WF v) (hi : i < v.size) :
    (Erase v off = none ↔ off < 0 ∨ (v.size : Int) ≤ off) ∧
    (∃ v', Erase v (i : Int) = some (v', i) ∧
      v'.size = v.size - 1 ∧
      elems v' = (elems v).take i ++ (elems v).drop (i + 1) ∧
      (i + 1 < v.size → (elems v')[i]? = (elems v)[i + 1]?) ∧
      (i + 1 = v.size → i = v'.size)) := by
  refine ⟨Erase_eq_none_iff v off, ?_⟩
  obtain ⟨v', h1, h2, h3, h4, h5, h6⟩ := Erase_spec v i hw hi
  obtain ⟨hlen, hle⟩ := hw
  have hlen1 : ((elems v).take i).length = i := by
    rw [List.length_take, length_elems (by omega)]
    omega
  refine ⟨v', h1, h2, h6, ?_, by omega⟩
  intro hlt
  rw [h6, List.getElem?_append_right hlen1.le, hlen1, Nat.sub_self,
    List.getElem?_drop, Nat.add_zero]

/-- C5 witness: erasing offset 1 of `(1, 2, 3)` yields `(1, 3)`; offset 3 is
rejected. -/
theorem C5_erase_contract_witness :
    WF natFullVec ∧ 1 < natFullVec.size ∧
    ((Erase natFullVec 3 = none ↔ (3 : Int) < 0 ∨ ((natFullVec.size : Int) ≤ 3)) ∧
     (∃ v', Erase natFullVec (1 : Nat) = some (v', 1) ∧
       v'.size = natFullVec.size - 1 ∧
       elems v' = (elems natFullVec).take 1 ++ (elems natFullVec).drop (1 + 1) ∧
       (1 + 1 < natFullVec.size → (elems v')[1]? = (elems natFullVec)[1 + 1]?) ∧
       (1 + 1 = natFullVec.size → 1 = v'.size))) :=
  ⟨by unfold WF natFullVec; exact ⟨rfl, by decide⟩, by decide,
   C5_erase_contract natFullVec 3 1 (by unfold WF natFullVec; exact ⟨rfl, by decide⟩)
     (by decide)⟩

/-- C8: for every well-formed container and every `i ≤ size`,
`Insert(begin() + i, x)` followed by `Erase(begin() + i)` restores the
original element sequence and size exactly. -/
theorem C8_insert_erase_roundtrip (v : SimpleVector α) (i : Nat) (x : α)
    (hw : WF v) (hi : i ≤ v.size) :
    ∃ v₁ v₂, Insert v (i : Int) x = some (v₁, i) ∧
      Erase v₁ (i : Int) = some (v₂, i) ∧
      elems v₂ = elems v ∧ v₂.size = v.size := by
  obtain ⟨v₁, h1, h2, h3, h4, h5⟩ := Insert_spec v i x hw hi
  obtain ⟨v₂, g1, g2, g3, g4, g5, g6⟩ := Erase_spec v₁ i h4 (by omega)
  refine ⟨v₁, v₂, h1, g1, ?_, by omega⟩
  obtain ⟨hlen, hle⟩ := hw
  have hlen1 : ((elems v).take i).length = i := by
    rw [List.length_take, length_elems (by omega)]
    omega
  rw [g6, h5, List.take_left' hlen1]
  rw [show (elems v).take i ++ x :: (elems v).drop i =
      ((elems v).take i ++ [x]) ++ (elems v).drop i by simp]
  rw [List.drop_left' (by simp [hlen1])]
  exact List.take_append_drop i (elems v)

/-- C8 witness: the round trip at offset 1 of `(1, 2, 3)` with value 99. -/
theorem C8_insert_erase_roundtrip_witness :
    WF natFullVec ∧ 1 ≤ natFullVec.size ∧
    (∃ v₁ v₂, Insert natFullVec (1 : Nat) 99 = some (v₁, 1) ∧
      Erase v₁ (1 : Nat) = some (v₂, 1) ∧
      elems v₂ = elems natFullVec ∧ v₂.size = natFullVec.size) :=
  ⟨by unfold WF natFullVec; exact ⟨rfl, by decide⟩, by decide,
   C8_insert_erase_roundtrip natFullVec 1 99
     (by unfold WF natFullVec; exact ⟨rfl, by decide⟩) (by decide)⟩

/-- C9: `Reserve(c)` with `c <= capacity_` changes nothing at all (the whole
state, buffer identity included, is returned untouched, so element addresses
are unchanged); with `c > capacity_` it sets the capacity to exactly `c`
while preserving size and element values. -/
theorem C9_reserve_contract (v : SimpleVector α) (c : Nat) (hw : WF v) :
    (c ≤ v.capacity → Reserve v c = v) ∧
    (v.capacity < c → (Reserve v c).capacity = c ∧ (Reserve v c).size = v.size ∧
      elems (Reserve v c) = elems v ∧ WF (Reserve v c)) := by
  obtain ⟨hlen, hle⟩ := hw
  constructor
  · intro h
    unfold Reserve
    rw [if_pos h]
  · intro h
    unfold Reserve
    rw [if_neg (by omega)]
    refine ⟨rfl, rfl, ?_, ?_, ?_⟩
    · show (elems v ++ List.replicate (c - v.size) default).take v.size = elems v
      exact List.take_left' (length_elems (by omega))
    · show (elems v ++ List.replicate (c - v.size) default).length = c
      rw [List.length_append, length_elems (by omega), List.length_replicate]
      omega
    · show v.size ≤ c
      omega

/-- C9 witness: `Reserve 2` on a full vector of capacity 3 is the identity;
`Reserve 7` grows the capacity to exactly 7. -/
theorem C9_reserve_contract_witness :
    WF natFullVec ∧ 2 ≤ natFullVec.capacity ∧ natFullVec.capacity < 7 ∧
    Reserve natFullVec 2 = natFullVec ∧
    (Reserve natFullVec 7).capacity = 7 ∧
    (Reserve natFullVec 7).size = natFullVec.size ∧
    elems (Reserve natFullVec 7) = elems natFullVec :=
  ⟨by unfold WF natFullVec; exact ⟨rfl, by decide⟩, by decide, by decide,
   (C9_reserve_contract natFullVec 2
     (by unfold WF natFullVec; exact ⟨rfl, by decide⟩)).1 (by decide),
   ((C9_reserve_contract natFullVec 7
     (by unfold WF natFullVec; exact ⟨rfl, by decide⟩)).2 (by decide)).1,
   ((C9_reserve_contract natFullVec 7
     (by unfold WF natFullVec; exact ⟨rfl, by decide⟩)).2 (by decide)).2.1,
   ((C9_reserve_contract natFullVec 7
     (by unfold WF natFullVec; exact ⟨rfl, by decide⟩)).2 (by decide)).2.2.1⟩

omit [Inhabited α] in
/-- C10: move-assigning a container to itself (`v = std::move(v)`, so
`this == &rhs` and the guard skips the body) is a no-op: the whole state —
buffer identity (nothing is released), size, capacity and all element
values — is unchanged, and the right-hand side is not reset. -/
theorem C10_self_move_assign (v : SimpleVector α) :
    moveAssign v v true = (v, v) ∧
    (moveAssign v v true).1.size = v.size ∧
    (moveAssign v v true).1.capacity = v.capacity ∧
    (moveAssign v v true).1.bufId = v.bufId ∧
    elems (moveAssign v v true).1 = elems v :=
  ⟨rfl, rfl, rfl, rfl, rfl⟩

end SimpleVec

namespace SimpleVec.Exn

variable {α : Type} [Inhabited α]

omit [Inhabited α] in
theorem stdMoveRange_ok (m : ElemModel α) :
    ∀ src : List α, (stdMoveRange m src).2.2 = true →
      (stdMoveRange m src).1 = src ∧
      (stdMoveRange m src).2.1 = src.map m.movedFrom := by
  intro src
  induction src with
  | nil => exact fun _ => ⟨rfl, rfl⟩
  | cons a t ih =>
    intro h
    by_cases hth : m.moveThrows a
    · simp [stdMoveRange, hth] at h
    · have h' : (stdMoveRange m t).2.2 = true := by
        simpa [stdMoveRange, hth] using h
      obtain ⟨ih1, ih2⟩ := ih h'
      simp [stdMoveRange, hth, ih1, ih2]

omit [Inhabited α] in
theorem stdCopyRange_ok (m : ElemModel α) :
    ∀ src : List α, (stdCopyRange m src).2 = true →
      (stdCopyRange m src).1 = src := by
  intro src
  induction src with
  | nil => exact fun _ => rfl
  | cons a t ih =>
    intro h
    by_cases hth : m.copyThrows a
    · simp [stdCopyRange, hth] at h
    · have h' : (stdCopyRange m t).2 = true := by
        simpa [stdCopyRange, hth] using h
      simp [stdCopyRange, hth, ih h']

omit [Inhabited α] in
/-- C1: `DataOverwrite` — the one relocation helper used by the growth paths
of `UniversalPushBack` and `UniversalInsert`, by `Resize`, by `Reserve` and by
the `Erase` left shift — transfers by `std::move` exactly when the element
type's move assignment cannot throw or the type is not copy-assignable, and
otherwise by `std::copy`, which leaves the source values untouched even when a
later element's copy fails; the in-place `Insert` shift applies the same
policy (`useMoveIns` is the same condition with the operands flipped), and a
completed transfer always writes exactly the source values. -/
theorem C1_relocation_policy (m : ElemModel α) (src : List α) :
    (useMove m = true ↔ (m.nothrowMove = true ∨ m.copyAssignable = false)) ∧
    useMoveIns m = useMove m ∧
    (useMove m = true → DataOverwrite m src = stdMoveRange m src) ∧
    (useMove m = false →
      (DataOverwrite m src).1 = (stdCopyRange m src).1 ∧
      (DataOverwrite m src).2.1 = src) ∧
    ((DataOverwrite m src).2.2 = true → (DataOverwrite m src).1 = src) := by
  refine ⟨?_, ?_, ?_, ?_, ?_⟩
  · unfold useMove
    cases m.copyAssignable <;> cases m.nothrowMove <;> simp
  · unfold useMove useMoveIns
    cases m.copyAssignable <;> cases m.nothrowMove <;> rfl
  · intro h
    unfold DataOverwrite
    rw [if_pos h]
  · intro h
    unfold DataOverwrite
    rw [if_neg (by simp [h])]
    exact ⟨rfl, rfl⟩
  · intro h
    unfold DataOverwrite at h ⊢
    by_cases hm : useMove m = true
    · rw [if_pos hm] at h ⊢
      exact (stdMoveRange_ok m src h).1
    · rw [if_neg hm] at h ⊢
      exact stdCopyRange_ok m src h

/-- C1 witness: for a copy-assignable, not nothrow-movable element type the
copy branch is chosen, and the source survives a transfer whose third element
would have failed. -/
theorem C1_relocation_policy_witness :
    useMove copyOnValueModel = false ∧
    (DataOverwrite copyOnValueModel [1, 2, 3]).1 =
      (stdCopyRange copyOnValueModel [1, 2, 3]).1 ∧
    (DataOverwrite copyOnValueModel [1, 2, 3]).2.1 = [1, 2, 3] :=
  ⟨rfl, ((C1_relocation_policy copyOnValueModel [1, 2, 3]).2.2.2.1 rfl).1,
   ((C1_relocation_policy copyOnValueModel [1, 2, 3]).2.2.2.1 rfl).2⟩

/-- C2 counterexample: the claim says a growth-free `PushBack` never throws,
but with one free slot (`size 0 < capacity 1`) and an element type whose copy
assignment throws, `PushBack` propagates the exception thrown by
`ptr_[size_] = item`. -/
theorem C2_growthfree_pushback_can_throw :
    oneSlotVec.size < oneSlotVec.capacity ∧
    (PushBackE throwingModel false oneSlotVec true).2 = Res.err Err.elemFail :=
  ⟨by decide, rfl⟩

/-- C2 (amended): `PopBack` (in particular on an empty container), `Clear`
and `swap` never fail; a growth-free `PushBack` never fails provided the
single element assignment that writes the new value into slot `size_` does
not throw (with a throwing assignment it propagates that exception). -/
theorem C2_nofail_amended (m : ElemModel α) (v a b : SimpleVector α) (x : α)
    (bm : Bool) :
    (PopBackE v).2 = Res.ok () ∧
    (ClearE v).2 = Res.ok () ∧
    (swapE a b).2 = Res.ok () ∧
    (v.size < v.capacity → assignThrows m bm x = false →
      (PushBackE m bm v x).2 = Res.ok ()) := by
  refine ⟨?_, rfl, rfl, ?_⟩
  · unfold PopBackE
    split_ifs <;> rfl
  · intro hlt hnt
    unfold PushBackE
    rw [if_neg (by omega : ¬ v.size = v.capacity), if_neg (by simp [hnt])]

/-- C2 witness: concrete never-failing runs of `PopBack`, `Clear`, `swap` and
of a growth-free `PushBack` with a non-throwing element assignment. -/
theorem C2_nofail_amended_witness :
    (PopBackE oneSlotVec).2 = Res.ok () ∧
    (ClearE oneSlotVec).2 = Res.ok () ∧
    (swapE oneSlotVec oneSlotVec).2 = Res.ok () ∧
    oneSlotVec.size < oneSlotVec.capacity ∧
    assignThrows benignModel false true = false ∧
    (PushBackE benignModel false oneSlotVec true).2 = Res.ok () :=
  ⟨(C2_nofail_amended benignModel oneSlotVec oneSlotVec oneSlotVec true false).1,
   (C2_nofail_amended benignModel oneSlotVec oneSlotVec oneSlotVec true false).2.1,
   (C2_nofail_amended benignModel oneSlotVec oneSlotVec oneSlotVec true false).2.2.1,
   by decide, rfl,
   (C2_nofail_amended benignModel oneSlotVec oneSlotVec oneSlotVec true false).2.2.2
     (by decide) rfl⟩

/-- C6: for an in-place `Insert` (`size_ < capacity_`, no reallocation),
`++size_` runs only after the whole right shift and the write of the new value
completed: any failure (including one thrown by an element's move or copy
during the shift) leaves `GetSize()` — the `size_` field — exactly as before
the call, even though elements may have been partially shifted, and a
successful call increments it by exactly 1. -/
theorem C6_inplace_insert_size (m : ElemModel α) (bm : Bool) (v : SimpleVector α)
    (off : Int) (x : α) (hlt : v.size < v.capacity) :
    (∀ st e, InsertE m bm v off x = (st, Res.err e) → st.size = v.size) ∧
    (∀ st i, InsertE m bm v off x = (st, Res.ok i) → st.size = v.size + 1) := by
  have hne : ¬ v.size = v.capacity := by omega
  constructor
  · intro st e heq
    simp only [InsertE, if_neg hne] at heq
    split_ifs at heq
    all_goals
      obtain ⟨h2, h3⟩ := Prod.mk.inj heq
    all_goals
      first
      | (exact Res.noConfusion h3)
      | (rw [← h2])
  · intro st i heq
    simp only [InsertE, if_neg hne] at heq
    split_ifs at heq
    all_goals
      obtain ⟨h2, h3⟩ := Prod.mk.inj heq
    all_goals
      first
      | (exact Res.noConfusion h3)
      | (rw [← h2])

/-- C6 witness: a throwing copy during the in-place shift of
`Insert(begin(), value)` on a container of size 2, capacity 3 leaves the size
at 2. -/
theorem C6_inplace_insert_size_witness :
    twoThreeVec.size < twoThreeVec.capacity ∧
    (InsertE throwingModel false twoThreeVec 0 true).1.size = twoThreeVec.size :=
  ⟨by decide,
   (C6_inplace_insert_size throwingModel false twoThreeVec 0 true (by decide)).1
     (InsertE throwingModel false twoThreeVec 0 true).1 Err.elemFail rfl⟩

/-- C7: when a growth-free `PushBack` fails in the element assignment that
writes the new value into slot `size_`, the observable container state is
exactly as before the call: `size_`, `capacity_`, the buffer identity and
every live element at positions `[0, size_)` are unchanged (the written-to
slot `size_` holds no live element). -/
theorem C7_growthfree_pushback_fail (m : ElemModel α) (bm : Bool)
    (v : SimpleVector α) (x : α) (hlt : v.size < v.capacity)
    (hthw : assignThrows m bm x = true) :
    (PushBackE m bm v x).1.size = v.size ∧
    (PushBackE m bm v x).1.capacity = v.capacity ∧
    (PushBackE m bm v x).1.bufId = v.bufId ∧
    elems (PushBackE m bm v x).1 = elems v ∧
    (PushBackE m bm v x).2 = Res.err Err.elemFail := by
  have hne : ¬ v.size = v.capacity := by omega
  have hres : PushBackE m bm v x =
      ({ v with buf := v.buf.set v.size default }, Res.err Err.elemFail) := by
    simp only [PushBackE, if_neg hne, if_pos hthw]
  rw [hres]
  refine ⟨rfl, rfl, rfl, ?_, rfl⟩
  show (v.buf.set v.size default).take v.size = v.buf.take v.size
  rw [List.set_take]
  apply List.set_eq_of_length_le
  rw [List.length_take]
  exact Nat.min_le_left _ _

/-- C7 witness: the failing growth-free `PushBack` of the C2 counterexample
leaves size, capacity, buffer identity and the live prefix unchanged. -/
theorem C7_growthfree_pushback_fail_witness :
    oneSlotVec.size < oneSlotVec.capacity ∧
    assignThrows throwingModel false true = true ∧
    (PushBackE throwingModel false oneSlotVec true).1.size = oneSlotVec.size ∧
    elems (PushBackE throwingModel false oneSlotVec true).1 = elems oneSlotVec :=
  ⟨by decide, rfl,
   (C7_growthfree_pushback_fail throwingModel false oneSlotVec true
     (by decide) rfl).1,
   (C7_growthfree_pushback_fail throwingModel false oneSlotVec true
     (by decide) rfl).2.2.2.1⟩

end SimpleVec.Exn
